/-
Verification development for the FuturaDrive concept-car generator
(`scripts/auto_concept_car.py`).

Text is modelled as `List Char` (the script operates on Python `str`,
whose relevant operations here are ASCII-level: `str.find`, `str.replace`,
slicing, concatenation, `re.sub` over ASCII classes, `.strip()`,
`.lower()`).  Every definition is a direct translation of the
corresponding Python function; random draws are modelled as explicit
oracle inputs whose contracts (`random.uniform`/`random.randint` stay in
their closed interval, `random.sample` returns distinct indices,
`random.choice` returns an index below the list length) appear as
hypotheses.
-/
import Mathlib

namespace FuturaDrive

/-- Convert a string literal to the `List Char` text model. -/
def lit (s : String) : List Char := s.toList

/-! ### Substring search, modelling Python `str.find` -/

/-- Auxiliary scanner: first index `≥ i` (counting from the original
start) at which `pat` occurs as a prefix of the remaining text. -/
def findIdxAux (pat : List Char) : List Char → Nat → Option Nat
  | [], i => if pat.isPrefixOf ([] : List Char) then some i else none
  | c :: rest, i =>
    if pat.isPrefixOf (c :: rest) then some i else findIdxAux pat rest (i + 1)

/-- Model of Python `s.find(pat)`: `some i` for the first occurrence
index, `none` when `find` returns `-1`. -/
def findIdx (s pat : List Char) : Option Nat := findIdxAux pat s 0

/-- Occurrence predicate: `pat` occurs in `s` at index `i`. -/
def OccursAt (s pat : List Char) (i : Nat) : Prop := pat <+: s.drop i

/-- Containment predicate: `pat` occurs somewhere in `s` (Python
`pat in s`). -/
def ContainsStr (s pat : List Char) : Prop := ∃ a b, s = a ++ pat ++ b

/-- Boolean substring test (executable form of `ContainsStr`). -/
def containsB (s pat : List Char) : Bool := (findIdx s pat).isSome

theorem occursAt_cons_succ {c : Char} {rest pat : List Char} {j : Nat} :
    OccursAt (c :: rest) pat (j + 1) ↔ OccursAt rest pat j := Iff.rfl

theorem findIdxAux_eq_some {pat : List Char} :
    ∀ {s : List Char} {i p : Nat}, findIdxAux pat s i = some p →
      ∃ j, p = i + j ∧ OccursAt s pat j ∧ ∀ j' < j, ¬ OccursAt s pat j' := by
  intro s
  induction s with
  | nil =>
    intro i p h
    simp only [findIdxAux] at h
    split at h
    · rename_i hp
      have hip : i = p := by simpa using h
      refine ⟨0, by omega, ?_, fun j' hj' => absurd hj' (by omega)⟩
      simpa [OccursAt, List.isPrefixOf_iff_prefix] using hp
    · exact absurd h (by simp)
  | cons c rest ih =>
    intro i p h
    simp only [findIdxAux] at h
    split at h
    · rename_i hp
      have hip : i = p := by simpa using h
      refine ⟨0, by omega, ?_, fun j' hj' => absurd hj' (by omega)⟩
      simpa [OccursAt, List.isPrefixOf_iff_prefix] using hp
    · rename_i hp
      obtain ⟨j, hj, hocc, hmin⟩ := ih h
      refine ⟨j + 1, by omega, hocc, ?_⟩
      intro j' hj'
      cases j' with
      | zero =>
        intro hc
        exact hp (by simpa [OccursAt, List.isPrefixOf_iff_prefix] using hc)
      | succ j'' =>
        exact fun hc => hmin j'' (by omega) hc

theorem findIdxAux_eq_none {pat : List Char} :
    ∀ {s : List Char} {i : Nat}, findIdxAux pat s i = none →
      ∀ j, ¬ OccursAt s pat j := by
  intro s
  induction s with
  | nil =>
    intro i h j hc
    simp only [findIdxAux] at h
    split at h
    · exact absurd h (by simp)
    · rename_i hp
      have hnil : pat = [] := by
        have : pat <+: ([] : List Char) := by
          simpa [OccursAt, List.drop_nil] using hc
        simpa using this
      exact hp (by simp [hnil, List.isPrefixOf_iff_prefix])
  | cons c rest ih =>
    intro i h j hc
    simp only [findIdxAux] at h
    split at h
    · exact absurd h (by simp)
    · rename_i hp
      cases j with
      | zero =>
        exact hp (by simpa [OccursAt, List.isPrefixOf_iff_prefix] using hc)
      | succ j' =>
        exact ih h j' hc

/-- Characterisation of a successful `findIdx`: the pattern occurs at the
returned index and at no earlier index. -/
theorem findIdx_eq_some {s pat : List Char} {p : Nat}
    (h : findIdx s pat = some p) :
    OccursAt s pat p ∧ ∀ i < p, ¬ OccursAt s pat i := by
  obtain ⟨j, hj, hocc, hmin⟩ := findIdxAux_eq_some h
  have : p = j := by omega
  subst this
  exact ⟨hocc, hmin⟩

/-- Characterisation of a failing `findIdx`: the pattern occurs nowhere. -/
theorem findIdx_eq_none {s pat : List Char} (h : findIdx s pat = none) :
    ∀ i, ¬ OccursAt s pat i :=
  findIdxAux_eq_none h

theorem containsStr_iff {s pat : List Char} :
    ContainsStr s pat ↔ ∃ i, OccursAt s pat i := by
  constructor
  · rintro ⟨a, b, rfl⟩
    refine ⟨a.length, ?_⟩
    unfold OccursAt
    rw [List.append_assoc, List.drop_left]
    exact ⟨b, rfl⟩
  · rintro ⟨i, hi⟩
    obtain ⟨t, ht⟩ := hi
    refine ⟨s.take i, t, ?_⟩
    rw [List.append_assoc, ht, List.take_append_drop]

theorem containsB_iff {s pat : List Char} :
    containsB s pat = true ↔ ContainsStr s pat := by
  unfold containsB
  constructor
  · intro h
    rcases hf : findIdx s pat with _ | p
    · rw [hf] at h; simp at h
    · exact containsStr_iff.mpr ⟨p, (findIdx_eq_some hf).1⟩
  · intro h
    obtain ⟨i, hi⟩ := containsStr_iff.mp h
    rcases hf : findIdx s pat with _ | p
    · exact absurd hi (findIdx_eq_none hf i)
    · simp

theorem not_containsStr_of_containsB_false {s pat : List Char}
    (h : containsB s pat = false) : ¬ ContainsStr s pat := by
  intro hc
  rw [← containsB_iff] at hc
  rw [h] at hc
  exact Bool.false_ne_true hc

/-- Containment is preserved by appending on the right. -/
theorem containsStr_append_left {s pat : List Char} (t : List Char)
    (h : ContainsStr s pat) : ContainsStr (s ++ t) pat := by
  obtain ⟨a, b, rfl⟩ := h
  exact ⟨a, b ++ t, by simp⟩

/-- Containment is preserved by appending on the left. -/
theorem containsStr_append_right {t pat : List Char} (s : List Char)
    (h : ContainsStr t pat) : ContainsStr (s ++ t) pat := by
  obtain ⟨a, b, rfl⟩ := h
  exact ⟨s ++ a, b, by simp⟩

/-- A string of the form `a ++ pat ++ b` contains `pat`. -/
theorem containsStr_here (a b pat : List Char) :
    ContainsStr (a ++ pat ++ b) pat := ⟨a, b, rfl⟩

/-- Every string contains itself. -/
theorem containsStr_refl (pat : List Char) : ContainsStr pat pat :=
  ⟨[], [], by simp⟩

/-! ### Python `str.replace` and the script's `render` (source lines
421–425).

`render` iterates over the context in insertion order and performs
`out = out.replace("\x7b\x7b " + k + " \x7d\x7d", str(v))` for each
binding; values are modelled as text (`str(v)` applied already).
CPython's `str.replace` substitutes non-overlapping occurrences found
left to right; it is modelled here with explicit fuel so that the
definition is structurally recursive (the fuel is an upper bound on the
text length, and every step consumes at least one character).  The
script's patterns are always non-empty, and for an empty pattern the
model leaves the text unchanged. -/

/-- Placeholder token for a context key, exactly as built by `render`. -/
def placeholder (k : List Char) : List Char := lit "\x7b\x7b " ++ k ++ lit " \x7d\x7d"

theorem placeholder_ne_nil (k : List Char) : placeholder k ≠ [] := by
  simp [placeholder, lit]

/-- Fuel-indexed scanner of Python `s.replace(pat, rep)`. -/
def replaceFuel (pat rep : List Char) : Nat → List Char → List Char
  | 0, s => s
  | _ + 1, [] => []
  | fuel + 1, c :: rest =>
    if pat ≠ [] ∧ pat.isPrefixOf (c :: rest) then
      rep ++ replaceFuel pat rep fuel (rest.drop (pat.length - 1))
    else
      c :: replaceFuel pat rep fuel rest

/-- Model of Python `s.replace(pat, rep)` for non-empty `pat`. -/
def replaceStr (s pat rep : List Char) : List Char :=
  replaceFuel pat rep s.length s

/-- Model of the script's `render(tpl, ctx)`: sequential whole-string
replacement, one context binding after another in context order. -/
def render (tpl : List Char) (ctx : List (List Char × List Char)) : List Char :=
  ctx.foldl (fun out kv => replaceStr out (placeholder kv.1) kv.2) tpl

theorem replaceFuel_congr (pat rep : List Char) :
    ∀ (f : Nat) {g : Nat} {s : List Char}, s.length ≤ f → s.length ≤ g →
      replaceFuel pat rep f s = replaceFuel pat rep g s := by
  intro f
  induction f with
  | zero =>
    intro g s hf _
    have : s = [] := List.eq_nil_of_length_eq_zero (Nat.le_zero.mp hf)
    subst this
    cases g <;> simp [replaceFuel]
  | succ f ih =>
    intro g s hf hg
    cases s with
    | nil => cases g <;> simp [replaceFuel]
    | cons c rest =>
      cases g with
      | zero => simp at hg
      | succ g =>
        simp only [List.length_cons] at hf hg
        have hlen := List.length_drop (pat.length - 1) rest
        simp only [replaceFuel]
        split
        · exact congrArg (fun x => rep ++ x) (ih (by omega) (by omega))
        · exact congrArg (fun x => c :: x) (ih (by omega) (by omega))

/-- Unfolding equation for `replaceStr` on a non-empty string. -/
theorem replaceStr_cons (pat rep : List Char) (c : Char) (rest : List Char) :
    replaceStr (c :: rest) pat rep =
      if pat ≠ [] ∧ pat.isPrefixOf (c :: rest) then
        rep ++ replaceStr (rest.drop (pat.length - 1)) pat rep
      else
        c :: replaceStr rest pat rep := by
  unfold replaceStr
  have hlen := List.length_drop (pat.length - 1) rest
  simp only [List.length_cons, replaceFuel]
  split
  · exact congrArg (fun x => rep ++ x)
      (replaceFuel_congr pat rep rest.length (by omega) (by omega))
  · rfl

/-! ### Rendering as worded by the specification.

The spec reads rendering as a simultaneous substitution: in one pass
over the template, each literal occurrence of the placeholder of a key
present in the context becomes the value of that key, and every other
character — in particular every placeholder of an absent key — is copied
verbatim. -/

/-- First context binding whose placeholder starts at the head of `s`,
together with the placeholder's length. -/
def findBinding (ctx : List (List Char × List Char)) (s : List Char) :
    Option (List Char × Nat) :=
  match ctx with
  | [] => none
  | (k, v) :: rest =>
    if (placeholder k).isPrefixOf s then some (v, (placeholder k).length)
    else findBinding rest s

/-- Fuel-indexed single pass of the spec's simultaneous substitution. -/
def specRenderFuel (ctx : List (List Char × List Char)) :
    Nat → List Char → List Char
  | 0, s => s
  | _ + 1, [] => []
  | fuel + 1, c :: rest =>
    match findBinding ctx (c :: rest) with
    | some (v, n) => v ++ specRenderFuel ctx fuel (rest.drop (n - 1))
    | none => c :: specRenderFuel ctx fuel rest

/-- Modelled from the spec: "every occurrence of each placeholder token
is replaced by the string form of its value; unresolved placeholders are
left verbatim" — a single left-to-right pass replacing each placeholder
occurrence of a present key by that key's value and copying everything
else unchanged. -/
def specRender (tpl : List Char) (ctx : List (List Char × List Char)) :
    List Char :=
  specRenderFuel ctx tpl.length tpl

theorem replaceFuel_eq_specRenderFuel_single (k v : List Char) :
    ∀ (fuel : Nat) (s : List Char),
      replaceFuel (placeholder k) v fuel s = specRenderFuel [(k, v)] fuel s := by
  intro fuel
  induction fuel with
  | zero => intro s; rfl
  | succ fuel ih =>
    intro s
    cases s with
    | nil => rfl
    | cons c rest =>
      simp only [replaceFuel, specRenderFuel, findBinding]
      by_cases hp : (placeholder k).isPrefixOf (c :: rest)
      · simp only [hp, placeholder_ne_nil k, ne_eq, not_false_iff, true_and,
          if_true]
        exact congrArg (fun x => v ++ x) (ih _)
      · simp only [hp, if_false, and_false]
        exact congrArg (fun x => c :: x) (ih _)

/-- Context used to separate sequential from simultaneous rendering. -/
def ctxC1 : List (List Char × List Char) :=
  [(lit "A", lit "\x7b\x7b B \x7d\x7d"), (lit "B", lit "x")]

/-- C1 (counterexample).  On the template consisting of the single
placeholder token for key `A`, with the context mapping `A` to the text
of `B`'s placeholder token and `B` to `x`, the claim as stated predicts
the output to be the string form of `A`'s value (the `B` placeholder
token, left verbatim by the simultaneous reading), but `render` produces
`x`: the first replacement's output is rewritten again by the second
binding, so the value of `A` does not survive into the output. -/
theorem render_claim_counterexample :
    render (lit "\x7b\x7b A \x7d\x7d") ctxC1 = lit "x" ∧
    specRender (lit "\x7b\x7b A \x7d\x7d") ctxC1 = lit "\x7b\x7b B \x7d\x7d" ∧
    containsB (render (lit "\x7b\x7b A \x7d\x7d") ctxC1)
      (lit "\x7b\x7b B \x7d\x7d") = false ∧
    lit "x" ≠ lit "\x7b\x7b B \x7d\x7d" := by
  decide

/-- C1 (amended).  Rendering applies the context bindings sequentially
in context order, each step replacing — left to right, non-overlapping —
every occurrence of that binding's placeholder token in the current
string by the binding's value.  For a single-binding context this
coincides with the claim's wording (simultaneous substitution: every
occurrence of the present key's placeholder is replaced by its value and
all other text, including placeholder tokens of absent keys, is left
verbatim); for longer contexts the result equals rendering the remaining
bindings over the single-binding result, so a value containing a later
key's placeholder is itself rewritten. -/
theorem render_sequential_single_binding_spec (tpl k v : List Char) :
    render tpl [(k, v)] = specRender tpl [(k, v)] ∧
    ∀ ctx : List (List Char × List Char),
      render tpl ((k, v) :: ctx) = render (render tpl [(k, v)]) ctx := by
  refine ⟨replaceFuel_eq_specRenderFuel_single k v tpl.length tpl, ?_⟩
  intro ctx
  rfl

/-! ### Occurrence lemmas used for the index surgery proofs -/

theorem occursAt_length {s pat : List Char} {i : Nat} (hpat : pat ≠ [])
    (h : OccursAt s pat i) : i + pat.length ≤ s.length := by
  have h' : pat <+: s.drop i := h
  have hle := h'.length_le
  rw [List.length_drop] at hle
  have hpos : 1 ≤ pat.length := by
    cases pat with
    | nil => exact absurd rfl hpat
    | cons c r => simp
  omega

theorem occursAt_getD {s pat : List Char} {i k : Nat} (h : OccursAt s pat i)
    (hk : k < pat.length) : s.getD (i + k) ' ' = pat.getD k ' ' := by
  have h' : pat <+: s.drop i := h
  have hle := h'.length_le
  rw [List.length_drop] at hle
  have hik : i + k < s.length := by omega
  have h1 := List.IsPrefix.getElem h' hk
  rw [List.getElem_drop] at h1
  rw [List.getD_eq_getElem s ' ' hik, List.getD_eq_getElem pat ' ' hk]
  exact h1.symm

theorem occursAt_take {s pat : List Char} {i n : Nat} (h : OccursAt s pat i)
    (hn : i + pat.length ≤ n) : OccursAt (s.take n) pat i := by
  have h' : pat <+: s.drop i := h
  show pat <+: (s.take n).drop i
  rw [List.drop_take]
  rw [List.prefix_iff_eq_take] at h' ⊢
  rw [List.take_take, inf_eq_left.mpr (by omega : pat.length ≤ n - i)]
  exact h'

theorem occursAt_of_take {s pat : List Char} {i n : Nat}
    (h : OccursAt (s.take n) pat i) : OccursAt s pat i := by
  have h' : pat <+: (s.take n).drop i := h
  show pat <+: s.drop i
  rw [List.drop_take] at h'
  exact h'.trans ( List.take_prefix _ _)

theorem occursAt_append_left {a pat : List Char} (b : List Char) {i : Nat}
    (h : OccursAt a pat i) (hi : i ≤ a.length) : OccursAt (a ++ b) pat i := by
  have h' : pat <+: a.drop i := h
  show pat <+: (a ++ b).drop i
  rw [List.drop_append_of_le_length hi]
  exact h'.trans (List.prefix_append _ _)

theorem occursAt_append_inner {b pat : List Char} (a : List Char) {j : Nat}
    (h : OccursAt b pat j) : OccursAt (a ++ b) pat (a.length + j) := by
  have h' : pat <+: b.drop j := h
  show pat <+: (a ++ b).drop (a.length + j)
  rw [List.drop_append]
  exact h'

/-- An occurrence inside an append either fits in the left part, starts
in the right part, or straddles the boundary. -/
theorem occursAt_append_cases {a b pat : List Char} {i : Nat}
    (h : OccursAt (a ++ b) pat i) :
    (i + pat.length ≤ a.length ∧ OccursAt a pat i) ∨
    (a.length ≤ i ∧ OccursAt b pat (i - a.length)) ∨
    (i < a.length ∧ a.length < i + pat.length) := by
  by_cases h1 : i + pat.length ≤ a.length
  · left
    refine ⟨h1, ?_⟩
    have h' : pat <+: (a ++ b).drop i := h
    rw [List.drop_append_of_le_length (by omega)] at h'
    show pat <+: a.drop i
    rw [List.prefix_iff_eq_take] at h' ⊢
    rw [List.take_append_of_le_length (by rw [List.length_drop]; omega)] at h'
    exact h'
  · by_cases h2 : a.length ≤ i
    · right; left
      refine ⟨h2, ?_⟩
      have h' : pat <+: (a ++ b).drop i := h
      rw [show i = a.length + (i - a.length) from by omega, List.drop_append]
        at h'
      exact h'
    · right; right
      omega

/-- An occurrence straddling the boundary of an append determines a
character of the pattern: the pattern contains the first character of
the right part. -/
theorem occursAt_cross_char (c : Char) (bs : List Char)
    {a pat : List Char} {i : Nat}
    (h : OccursAt (a ++ c :: bs) pat i) (h1 : i < a.length)
    (h2 : a.length < i + pat.length) :
    pat.getD (a.length - i) ' ' = c := by
  have hk : a.length - i < pat.length := by omega
  have hchar := occursAt_getD h hk
  rw [show i + (a.length - i) = a.length from by omega] at hchar
  have hb : (a ++ c :: bs).getD a.length ' ' = c := by
    have hlen : a.length < (a ++ c :: bs).length := by simp
    rw [List.getD_eq_getElem _ ' ' hlen,
      List.getElem_append_right (Nat.le_refl a.length)]
    simp
  rw [hb] at hchar
  exact hchar.symm

/-- First occurrence returned by `findIdx` is no later than any
occurrence. -/
theorem findIdx_le_of_occursAt {s pat : List Char} {i : Nat}
    (h : OccursAt s pat i) : ∃ p, findIdx s pat = some p ∧ p ≤ i := by
  rcases hf : findIdx s pat with _ | p
  · exact absurd h (findIdx_eq_none hf i)
  · obtain ⟨_, hmin⟩ := findIdx_eq_some hf
    by_cases hpi : p ≤ i
    · exact ⟨p, rfl, hpi⟩
    · exact absurd h (hmin i (by omega))

theorem findIdx_none_of_not_contains {s pat : List Char}
    (h : ¬ ContainsStr s pat) : findIdx s pat = none := by
  rcases hf : findIdx s pat with _ | p
  · rfl
  · exact absurd (containsStr_iff.mpr ⟨p, (findIdx_eq_some hf).1⟩) h

/-! ### Index feed insertion (source lines 452–460).

`insert_card_into_index` reads `index.html`, locates the two sentinel
markers with `str.find`, raises `RuntimeError` — before any write — when
either is absent (`find` returns `-1`) or the first end marker sits
before the first start marker, and otherwise writes back
`html[:ip] + "\n      " + card + html[ip:]` where `ip` is the position
just after the start marker.  The raising path is modelled as `none`. -/

/-- Sentinel opening marker `FEED:start` of the index feed. -/
def FEED_START : List Char := lit "<!-- FEED:start -->"

/-- Sentinel closing marker `FEED:end` of the index feed. -/
def FEED_END : List Char := lit "<!-- FEED:end -->"

/-- Fixed indentation written between the start marker and the card. -/
def CARD_INDENT : List Char := lit "\n      "

/-- Model of `insert_card_into_index`: `some` is the rewritten document,
`none` the `RuntimeError` path (no write happens). -/
def insert_card_into_index (html card : List Char) : Option (List Char) :=
  match findIdx html FEED_START, findIdx html FEED_END with
  | some s, some e =>
    if e < s then none
    else
      some (html.take (s + FEED_START.length) ++ CARD_INDENT ++ card ++
        html.drop (s + FEED_START.length))
  | _, _ => none

/-- Content of the index file after a run of `insert_card_into_index`
against a file holding `html`: the `RuntimeError` is raised before
`write_text`, so on failure the file keeps its previous content. -/
def indexFileAfter (html card : List Char) : List Char :=
  match insert_card_into_index html card with
  | some out => out
  | none => html

/-- Executable form of the code's success condition: both sentinels
found and the first end marker not before the first start marker. -/
def sentinelsOk (html : List Char) : Bool :=
  match findIdx html FEED_START, findIdx html FEED_END with
  | some s, some e => decide (s ≤ e)
  | _, _ => false

/-- Sequential insertion of several cards, failing as soon as one
insertion raises. -/
def insertMany (html : List Char) : List (List Char) → Option (List Char)
  | [] => some html
  | card :: rest =>
    match insert_card_into_index html card with
    | some out => insertMany out rest
    | none => none

theorem insert_eq_some_iff_sentinelsOk (html card : List Char) :
    (insert_card_into_index html card).isSome = sentinelsOk html := by
  unfold insert_card_into_index sentinelsOk
  rcases findIdx html FEED_START with _ | s <;>
    rcases findIdx html FEED_END with _ | e
  · rfl
  · rfl
  · rfl
  · by_cases h : e < s
    · simp [h, show ¬ s ≤ e from by omega]
    · simp [h, show s ≤ e from by omega]

/-- When two sentinel occurrences satisfy `p ≤ q`, the end marker in
fact starts past the whole start marker: the two marker texts cannot
overlap. -/
theorem feed_end_past_start {html : List Char} {p q : Nat}
    (hs : OccursAt html FEED_START p) (he : OccursAt html FEED_END q)
    (hpq : p ≤ q) : p + FEED_START.length ≤ q := by
  by_contra hc
  push_neg at hc
  have h0 : html.getD (q + 0) ' ' = FEED_END.getD 0 ' ' :=
    occursAt_getD he (by decide)
  have h1 : html.getD (p + (q - p)) ' ' = FEED_START.getD (q - p) ' ' :=
    occursAt_getD hs (by simp only [FEED_START, lit] at hc ⊢; omega)
  rw [show p + (q - p) = q from by omega] at h1
  rw [show q + 0 = q from rfl] at h0
  have hlt : FEED_START.getD (q - p) ' ' = '<' := by
    rw [← h1, h0]
    decide
  have hall : ∀ k, k < FEED_START.length →
      (FEED_START.getD k ' ' = '<' → k = 0) := by decide
  have hk0 : q - p = 0 :=
    hall (q - p) (by simp only [FEED_START, lit] at hc ⊢; omega) hlt
  have hqp : q = p := by omega
  subst hqp
  have h2 : html.getD (q + 10) ' ' = FEED_START.getD 10 ' ' :=
    occursAt_getD hs (by decide)
  have h3 : html.getD (q + 10) ' ' = FEED_END.getD 10 ' ' :=
    occursAt_getD he (by decide)
  exact absurd (h2.symm.trans h3) (by decide)

/-- Splitting a string around an occurrence of a pattern. -/
theorem occursAt_decomp {s pat : List Char} {p : Nat} (h : OccursAt s pat p)
    (hp : p + pat.length ≤ s.length) :
    s = s.take p ++ pat ++ s.drop (p + pat.length) ∧
    s.take (p + pat.length) = s.take p ++ pat := by
  have h' : pat <+: s.drop p := h
  obtain ⟨t, ht⟩ := h'
  have htd : t = s.drop (p + pat.length) := by
    have h2 := congrArg (List.drop pat.length) ht
    rw [List.drop_left] at h2
    rw [List.drop_drop] at h2
    exact h2
  have hsplit : s = s.take p ++ pat ++ s.drop (p + pat.length) :=
    calc s = s.take p ++ s.drop p := (List.take_append_drop p s).symm
      _ = s.take p ++ (pat ++ t) := by rw [ht]
      _ = s.take p ++ pat ++ s.drop (p + pat.length) := by
          rw [htd, List.append_assoc]
  refine ⟨hsplit, ?_⟩
  have hlp : (s.take p).length = p := by
    rw [List.length_take]
    exact inf_eq_left.mpr (by omega)
  conv_lhs => rw [hsplit]
  rw [List.append_assoc,
    show p + pat.length = (s.take p).length + pat.length from by rw [hlp],
    List.take_append, List.take_left]

/-- Elimination form of a successful insertion. -/
theorem insert_card_eq_some_elim {html card out : List Char}
    (h : insert_card_into_index html card = some out) :
    ∃ p q, findIdx html FEED_START = some p ∧ findIdx html FEED_END = some q ∧
      p ≤ q ∧
      out = html.take (p + FEED_START.length) ++ CARD_INDENT ++ card ++
        html.drop (p + FEED_START.length) := by
  rcases hs : findIdx html FEED_START with _ | p <;>
    rcases he : findIdx html FEED_END with _ | q <;>
    simp only [insert_card_into_index, hs, he] at h <;>
    try exact Option.noConfusion h
  by_cases hlt : q < p
  · rw [if_pos hlt] at h
    simp at h
  · rw [if_neg hlt] at h
    exact ⟨p, q, rfl, rfl, by omega, (Option.some.inj h).symm⟩

/-- C2 (amended).  A successful insertion splits the document at the
first occurrence of the start sentinel — `A` holds no occurrence of it —
and produces exactly `A ++ start ++ indent ++ card ++ B`: the card sits
right after the start sentinel, separated from it only by the fixed
seven-character indentation `"\n"` plus six spaces, and every character
of the original document (`A`, the sentinel, and the remainder `B`,
which includes the content up to and past the end sentinel) is preserved
unchanged in its original order. -/
theorem insert_card_placement_and_frame (html card out : List Char)
    (h : insert_card_into_index html card = some out) :
    ∃ A B, html = A ++ FEED_START ++ B ∧ ¬ ContainsStr A FEED_START ∧
      out = A ++ FEED_START ++ CARD_INDENT ++ card ++ B := by
  obtain ⟨p, q, hs, he, hpq, hout⟩ := insert_card_eq_some_elim h
  obtain ⟨hsp, hsmin⟩ := findIdx_eq_some hs
  have hlen : p + FEED_START.length ≤ html.length :=
    occursAt_length (by decide) hsp
  obtain ⟨hsplit, htake⟩ := occursAt_decomp hsp hlen
  refine ⟨html.take p, html.drop (p + FEED_START.length), ?_, ?_, ?_⟩
  · exact hsplit
  · intro hc
    obtain ⟨i, hi⟩ := containsStr_iff.mp hc
    have hi' : OccursAt html FEED_START i := occursAt_of_take hi
    have hbound : i + FEED_START.length ≤ (html.take p).length :=
      occursAt_length (by decide) hi
    rw [List.length_take] at hbound
    have hip : i < p := by
      have h1 : p ⊓ html.length ≤ p := inf_le_left
      have h2 : 0 < FEED_START.length := by decide
      omega
    exact hsmin i hip hi'
  · rw [hout, htake]

/-- C2 (counterexample).  On the document made of just the two
sentinels, inserting the card `C` produces the start sentinel followed
by a newline and six spaces before `C`, not by `C` itself: the inserted
card does not appear immediately after the start sentinel anywhere in
the output, contradicting the claim's placement statement. -/
theorem insert_card_claim_counterexample :
    insert_card_into_index (lit "<!-- FEED:start --><!-- FEED:end -->")
        (lit "C") =
      some (lit "<!-- FEED:start -->\n      C<!-- FEED:end -->") ∧
    ¬ ContainsStr (lit "<!-- FEED:start -->\n      C<!-- FEED:end -->")
        (FEED_START ++ lit "C") ∧
    lit "<!-- FEED:start -->\n      C<!-- FEED:end -->" ≠
      lit "<!-- FEED:start -->C<!-- FEED:end -->" := by
  refine ⟨by decide, not_containsStr_of_containsB_false (by decide), by decide⟩

/-- C2 (witness).  The amended statement applied to the concrete
two-sentinel document and the card `C`. -/
theorem insert_card_placement_and_frame_witness :
    ∃ A B, lit "<!-- FEED:start --><!-- FEED:end -->" =
        A ++ FEED_START ++ B ∧
      ¬ ContainsStr A FEED_START ∧
      lit "<!-- FEED:start -->\n      C<!-- FEED:end -->" =
        A ++ FEED_START ++ CARD_INDENT ++ lit "C" ++ B :=
  insert_card_placement_and_frame
    (lit "<!-- FEED:start --><!-- FEED:end -->") (lit "C")
    (lit "<!-- FEED:start -->\n      C<!-- FEED:end -->") (by decide)

/-- C3.  When the start sentinel is absent, or the end sentinel is
absent, or the first end sentinel sits strictly before the first start
sentinel, insertion raises (`none`) and the index file content is left
completely unmodified. -/
theorem insert_missing_sentinels_atomic (html card : List Char)
    (h : ¬ ContainsStr html FEED_START ∨ ¬ ContainsStr html FEED_END ∨
      ∃ p q, findIdx html FEED_START = some p ∧
        findIdx html FEED_END = some q ∧ q < p) :
    insert_card_into_index html card = none ∧
    indexFileAfter html card = html := by
  have hnone : insert_card_into_index html card = none := by
    rcases h with h | h | ⟨p, q, hp, hq, hlt⟩
    · simp only [insert_card_into_index, findIdx_none_of_not_contains h]
    · simp only [insert_card_into_index, findIdx_none_of_not_contains h]
      rcases findIdx html FEED_START with _ | p <;> rfl
    · simp only [insert_card_into_index, hp, hq]
      rw [if_pos hlt]
  refine ⟨hnone, ?_⟩
  unfold indexFileAfter
  rw [hnone]

/-- C3 (witness).  A document with no sentinels at all is rejected and
kept unchanged. -/
theorem insert_missing_sentinels_atomic_witness :
    (¬ ContainsStr (lit "hello") FEED_START) ∧
    insert_card_into_index (lit "hello") (lit "C") = none ∧
    indexFileAfter (lit "hello") (lit "C") = lit "hello" :=
  ⟨not_containsStr_of_containsB_false (by decide),
    insert_missing_sentinels_atomic (lit "hello") (lit "C")
      (Or.inl (not_containsStr_of_containsB_false (by decide)))⟩

/-- One successful insertion yields a document that again satisfies the
code's sentinel condition: the start sentinel is preserved in place, the
end sentinel survives past the inserted block, and no end-sentinel
occurrence can appear before the first start sentinel (the inserted
block starts with a newline, which the end marker does not contain, and
the marker texts cannot overlap). -/
theorem insert_preserves_sentinels {html card out : List Char}
    (h : insert_card_into_index html card = some out) :
    ∃ p' q', findIdx out FEED_START = some p' ∧
      findIdx out FEED_END = some q' ∧ p' ≤ q' := by
  obtain ⟨p, q, hs, he, hpq, hout⟩ := insert_card_eq_some_elim h
  obtain ⟨hsp, hsmin⟩ := findIdx_eq_some hs
  obtain ⟨hep, hemin⟩ := findIdx_eq_some he
  have hslpos : 0 < FEED_START.length := by decide
  have helpos : 0 < FEED_END.length := by decide
  have hlen : p + FEED_START.length ≤ html.length :=
    occursAt_length (by decide) hsp
  have hq19 : p + FEED_START.length ≤ q := feed_end_past_start hsp hep hpq
  set ip := p + FEED_START.length with hip
  set T := html.take ip with hT
  set D := html.drop ip with hD
  have hTlen : T.length = ip := by
    rw [hT, List.length_take]
    exact inf_eq_left.mpr hlen
  have houtassoc : out = T ++ (CARD_INDENT ++ (card ++ D)) := by
    rw [hout]
    simp [List.append_assoc]
  have hoT : OccursAt T FEED_START p := occursAt_take hsp (by omega)
  have ho1 : OccursAt out FEED_START p := by
    rw [houtassoc]
    exact occursAt_append_left _ hoT (by omega)
  obtain ⟨p', hp', hp'le⟩ := findIdx_le_of_occursAt ho1
  have hoD : OccursAt D FEED_END (q - ip) := by
    show FEED_END <+: D.drop (q - ip)
    rw [hD, List.drop_drop, show ip + (q - ip) = q from by omega]
    exact hep
  have ho2 : OccursAt out FEED_END
      ((T ++ CARD_INDENT ++ card).length + (q - ip)) := by
    rw [hout]
    exact occursAt_append_inner _ hoD
  obtain ⟨q', hq', hq'le⟩ := findIdx_le_of_occursAt ho2
  refine ⟨p', q', hp', hq', ?_⟩
  obtain ⟨hq'occ, hq'min⟩ := findIdx_eq_some hq'
  by_contra hcon
  push_neg at hcon
  have hq'lt : q' < ip := by omega
  have hq'occ' : OccursAt (T ++ (CARD_INDENT ++ (card ++ D))) FEED_END q' := by
    rw [← houtassoc]
    exact hq'occ
  rcases occursAt_append_cases hq'occ' with ⟨hfit, hocc⟩ | ⟨hge, _⟩ |
    ⟨hlt2, hcross⟩
  · have hocc2 : OccursAt html FEED_END q' := occursAt_of_take (hT ▸ hocc)
    exact hemin q' (by omega) hocc2
  · omega
  · have hcc : FEED_END.getD (T.length - q') ' ' = '\n' :=
      occursAt_cross_char '\n' (lit "      " ++ (card ++ D)) hq'occ' hlt2
        hcross
    have hnonl : ∀ k, k < FEED_END.length → FEED_END.getD k ' ' ≠ '\n' := by
      decide
    exact hnonl (T.length - q') (by omega) hcc

/-- C10.  Any document meeting the insertion precondition (both
sentinels found, the first start sentinel not after the first end
sentinel) supports any finite sequence of insertions: every step
succeeds and the final document satisfies the precondition again. -/
theorem insertMany_preserves_sentinels :
    ∀ (cards : List (List Char)) (html : List Char),
      (∃ p q, findIdx html FEED_START = some p ∧
        findIdx html FEED_END = some q ∧ p ≤ q) →
      ∃ out, insertMany html cards = some out ∧
        ∃ p q, findIdx out FEED_START = some p ∧
          findIdx out FEED_END = some q ∧ p ≤ q := by
  intro cards
  induction cards with
  | nil => exact fun html h => ⟨html, rfl, h⟩
  | cons card rest ih =>
    intro html h
    obtain ⟨p, q, hp, hq, hpq⟩ := h
    have hsucc : insert_card_into_index html card =
        some (html.take (p + FEED_START.length) ++ CARD_INDENT ++ card ++
          html.drop (p + FEED_START.length)) := by
      simp only [insert_card_into_index, hp, hq]
      rw [if_neg (by omega)]
    obtain ⟨out, hmany, hfin⟩ := ih _ (insert_preserves_sentinels hsucc)
    refine ⟨out, ?_, hfin⟩
    simp only [insertMany, hsucc]
    exact hmany

/-- C10 (witness).  Two successive insertions into a concrete
well-formed index document succeed. -/
theorem insertMany_preserves_sentinels_witness :
    (∃ p q, findIdx (lit "a<!-- FEED:start -->b<!-- FEED:end -->c")
        FEED_START = some p ∧
      findIdx (lit "a<!-- FEED:start -->b<!-- FEED:end -->c") FEED_END =
        some q ∧ p ≤ q) ∧
    ∃ out, insertMany (lit "a<!-- FEED:start -->b<!-- FEED:end -->c")
        [lit "cardOne", lit "cardTwo"] = some out ∧
      ∃ p q, findIdx out FEED_START = some p ∧
        findIdx out FEED_END = some q ∧ p ≤ q :=
  ⟨⟨1, 21, by decide, by decide, by decide⟩,
    insertMany_preserves_sentinels [lit "cardOne", lit "cardTwo"]
      (lit "a<!-- FEED:start -->b<!-- FEED:end -->c")
      ⟨1, 21, by decide, by decide, by decide⟩⟩

/-! ### Naming: `slugify` (lines 57–60), `SYLLABLES` and `invent_name`
(lines 66–75), category choice (line 470).

The character classes model the ASCII behaviour of the regexes
`[^\w\s-]` and `[\s_]`, of `str.strip()` and of `str.lower()`; every
name the script builds is ASCII (syllable table plus `" One"`/`" Lux"`),
so the ASCII model is exact on the script's inputs. -/

/-- ASCII whitespace class (regex `\s`, `str.strip` characters). -/
def wsChar (c : Char) : Bool :=
  c == ' ' || c == '\t' || c == '\n' || c == '\r' || c == '\x0b' ||
    c == '\x0c'

/-- ASCII word-character class (regex `\w`). -/
def wordChar (c : Char) : Bool := c.isAlphanum || c == '_'

/-- Character class `[\s_]` collapsed to hyphens by `slugify`. -/
def sepChar (c : Char) : Bool := wsChar c || c == '_'

/-- Characters kept by `re.sub(r"[^\w\s-]", "", text)`. -/
def keepChar (c : Char) : Bool := wordChar c || wsChar c || c == '-'

/-- Model of `str.strip()`: drop whitespace from both ends. -/
def stripWs (s : List Char) : List Char :=
  ((s.dropWhile wsChar).reverse.dropWhile wsChar).reverse

/-- Model of `str.lower()` on ASCII text. -/
def lowerStr (s : List Char) : List Char := s.map Char.toLower

/-- State-passing scanner for `re.sub(r"[\s_]+", "-", s)`: each maximal
run of separator characters becomes a single hyphen (the flag records
whether the previous character belonged to a run). -/
def collapseAux : Bool → List Char → List Char
  | _, [] => []
  | inSep, c :: rest =>
    if sepChar c then
      if inSep then collapseAux true rest
      else '-' :: collapseAux true rest
    else c :: collapseAux false rest

/-- Model of `re.sub(r"[\s_]+", "-", s)`. -/
def collapseSeps (s : List Char) : List Char := collapseAux false s

/-- Model of `slugify`: remove characters outside `[\w\s-]`, strip
surrounding whitespace, lowercase, collapse `[\s_]` runs to hyphens. -/
def slugify (text : List Char) : List Char :=
  collapseSeps (lowerStr (stripWs (text.filter keepChar)))

/-- The syllable table `SYLLABLES`. -/
def SYLLABLES : List (List Char) :=
  [lit "Qy", lit "Xeno", lit "Aeon", lit "Nexo", lit "Veyra", lit "Celest",
   lit "Hydra", lit "Zyra", lit "Lyri", lit "Astra", lit "Orix", lit "Nyra",
   lit "Kael", lit "Seraph", lit "Volt", lit "Icar", lit "Arion", lit "Nova",
   lit "Lumen", lit "Valk", lit "Kyra", lit "Orion", lit "Nexa", lit "Helio"]

/-- Vehicle category: `"sport"` or `"berline"` in the script. -/
inductive CarType
  | sport
  | berline
deriving DecidableEq

/-- Category suffix of the invented name. -/
def name_suffix (car_type : CarType) : List Char :=
  if car_type = CarType.sport then lit " One" else lit " Lux"

/-- Model of `invent_name`: `random.sample(SYLLABLES, k=2)` is an oracle
returning two distinct indices `i ≠ j` into the table; the name is the
two sampled syllables joined and suffixed by category. -/
def invent_name (car_type : CarType) (i j : Fin SYLLABLES.length) :
    List Char :=
  SYLLABLES.get i ++ SYLLABLES.get j ++ name_suffix car_type

/-- Model of line 470: `car_type = "sport" if day % 2 == 0 else
"berline"`. -/
def choose_category (day : Nat) : CarType :=
  if day % 2 == 0 then CarType.sport else CarType.berline

/-- C7.  The chosen category is a function of day parity alone: an even
day of the month yields the sport category, an odd day the luxury
(berline) category. -/
theorem choose_category_by_parity (day : Nat) :
    (Even day → choose_category day = CarType.sport) ∧
    (Odd day → choose_category day = CarType.berline) := by
  constructor
  · intro h
    have h2 : day % 2 = 0 := Nat.even_iff.mp h
    simp [choose_category, h2]
  · intro h
    have h2 : day % 2 = 1 := Nat.odd_iff.mp h
    simp [choose_category, h2]

/-- C7 (witness).  Day 2 yields sport, day 3 yields berline. -/
theorem choose_category_by_parity_witness :
    (Even 2 ∧ choose_category 2 = CarType.sport) ∧
    (Odd 3 ∧ choose_category 3 = CarType.berline) :=
  ⟨⟨⟨1, rfl⟩, (choose_category_by_parity 2).1 ⟨1, rfl⟩⟩,
    ⟨⟨1, rfl⟩, (choose_category_by_parity 3).2 ⟨1, rfl⟩⟩⟩

/-- C8.  Every invented display name is the concatenation of two
distinct entries of the syllable table followed by the category suffix,
which is " One" for sport and " Lux" otherwise. -/
theorem invent_name_structure (ct : CarType) (i j : Fin SYLLABLES.length)
    (hij : i ≠ j) :
    ∃ s1 ∈ SYLLABLES, ∃ s2 ∈ SYLLABLES, s1 ≠ s2 ∧
      invent_name ct i j = s1 ++ s2 ++ name_suffix ct ∧
      name_suffix CarType.sport = lit " One" ∧
      name_suffix CarType.berline = lit " Lux" := by
  refine ⟨SYLLABLES.get i, List.get_mem _ _ _, SYLLABLES.get j,
    List.get_mem _ _ _, ?_, rfl, rfl, rfl⟩
  intro hc
  have hnd : SYLLABLES.Nodup := by decide
  exact hij (hnd.get_inj_iff.mp hc)

/-- C8 (witness).  Distinct sample indices 0 and 1 for the sport
category. -/
theorem invent_name_structure_witness :
    ((⟨0, by decide⟩ : Fin SYLLABLES.length) ≠ ⟨1, by decide⟩) ∧
    ∃ s1 ∈ SYLLABLES, ∃ s2 ∈ SYLLABLES, s1 ≠ s2 ∧
      invent_name CarType.sport ⟨0, by decide⟩ ⟨1, by decide⟩ =
        s1 ++ s2 ++ name_suffix CarType.sport ∧
      name_suffix CarType.sport = lit " One" ∧
      name_suffix CarType.berline = lit " Lux" :=
  ⟨by decide,
    invent_name_structure CarType.sport ⟨0, by decide⟩ ⟨1, by decide⟩
      (by decide)⟩

/-! ### File naming (`main`, lines 476–482). -/

/-- Zero-padded two-digit component of `strftime` (`%m`, `%d`). -/
def pad2 (n : Nat) : List Char :=
  if n < 10 then '0' :: Nat.toDigits 10 n else Nat.toDigits 10 n

/-- Zero-padded four-digit component of `strftime` (`%Y`). -/
def pad4 (n : Nat) : List Char :=
  List.replicate (4 - (Nat.toDigits 10 n).length) '0' ++ Nat.toDigits 10 n

/-- Model of `now.strftime("%Y-%m-%d")`. -/
def date_prefix (y m d : Nat) : List Char :=
  pad4 y ++ lit "-" ++ pad2 m ++ lit "-" ++ pad2 d

/-- Article file name as built in `main`:
`f"{date_prefix}-{slug}.html"` with `slug = slugify(model_name)`. -/
def article_file_name (y m d : Nat) (model_name : List Char) : List Char :=
  date_prefix y m d ++ lit "-" ++ slugify model_name ++ lit ".html"

/-- Image file name as built in `main`:
`f"{date_prefix}-{slug}-0k.png"`. -/
def image_file_name (y m d : Nat) (model_name num : List Char) : List Char :=
  date_prefix y m d ++ lit "-" ++ slugify model_name ++ lit "-" ++ num ++
    lit ".png"

/-- Evaluation of `slugify` on every invented name: the two syllables
lowercased and joined, a hyphen for the collapsed space, and the
lowercased suffix word. -/
theorem slugify_invent_name (ct : CarType) :
    ∀ i j : Fin SYLLABLES.length,
      slugify (invent_name ct i j) =
        lowerStr (SYLLABLES.get i) ++ lowerStr (SYLLABLES.get j) ++
          lit "-" ++
          (if ct = CarType.sport then lit "one" else lit "lux") := by
  cases ct <;> decide

/-- C6.  For every run date and every invented vehicle name, the
rendered article's file name is `<date>-<slug>.html`: the zero-padded
`YYYY-MM-DD` date, a hyphen, then the slug of the invented name — the
lowercase, hyphen-joined form in which the single space before the
suffix word is collapsed to a hyphen (invented names carry no other
whitespace, underscores or punctuation), followed by `.html`. -/
theorem article_file_name_spec (y m d : Nat) (ct : CarType)
    (i j : Fin SYLLABLES.length) :
    article_file_name y m d (invent_name ct i j) =
      date_prefix y m d ++ lit "-" ++
        (lowerStr (SYLLABLES.get i) ++ lowerStr (SYLLABLES.get j) ++
          lit "-" ++
          (if ct = CarType.sport then lit "one" else lit "lux")) ++
        lit ".html" := by
  unfold article_file_name
  rw [slugify_invent_name]

/-! ### Spec randomizer (lines 77–99).

The ambient random source is an oracle; its contract — `uniform` and
`randint` stay inside their closed interval — is the hypothesis of the
range theorem.  Floats are modelled as rationals; `round(x, n)` is
modelled as nearest-integer rounding of `x * 10^n` (CPython breaks ties
to even and works on binary floats, but interval membership is
insensitive to the tie-breaking direction). -/

/-- Oracle for the ambient random source: `uniform a b` models
`random.uniform(a, b)` and `randint a b` models `random.randint(a, b)`. -/
structure RNG where
  uniform : ℚ → ℚ → ℚ
  randint : ℤ → ℤ → ℤ

/-- Contract of the random source: both kinds of draw lie in their
closed interval. -/
def RNG.Lawful (g : RNG) : Prop :=
  (∀ a b : ℚ, a ≤ b → a ≤ g.uniform a b ∧ g.uniform a b ≤ b) ∧
  (∀ a b : ℤ, a ≤ b → a ≤ g.randint a b ∧ g.randint a b ≤ b)

/-- Model of Python `round(x, n)` over the rationals. -/
def roundTo (n : Nat) (x : ℚ) : ℚ := (round (x * 10 ^ n) : ℚ) / 10 ^ n

/-- Dimensions sub-record of a spec sheet. -/
structure Dims where
  length : ℚ
  width : ℚ
  height : ℚ
  wheelbase : ℚ

/-- Value record produced by `random_specs`. -/
structure VehicleSpec where
  zero100 : ℚ
  vmax : ℤ
  power_hp : ℤ
  autonomy : ℤ
  seats : ℤ
  tag : List Char
  dims : Dims

/-- Model of `random_specs`: every numeric field drawn from its
category- and mode-specific interval, seats and tag fixed per branch. -/
def random_specs (g : RNG) (futureMode : Bool) (car_type : CarType) :
    VehicleSpec :=
  let autonomy : ℤ :=
    if futureMode then g.randint 950 1200 else g.randint 700 950
  let dims : Dims :=
    { length := roundTo 2 (g.uniform 4.70 5.15)
      width := roundTo 2 (g.uniform 1.92 2.06)
      height := roundTo 2 (g.uniform 1.17 1.40)
      wheelbase := roundTo 2 (g.uniform 2.85 3.15) }
  if car_type = CarType.sport then
    { zero100 := if futureMode then roundTo 2 (g.uniform 1.8 2.4)
        else roundTo 1 (g.uniform 2.6 3.2)
      vmax := if futureMode then g.randint 360 420 else g.randint 310 340
      power_hp := if futureMode then g.randint 1100 1600
        else g.randint 750 900
      autonomy := autonomy
      seats := 2
      tag := if futureMode then lit "Hypercar" else lit "Supercar"
      dims := dims }
  else
    { zero100 := if futureMode then roundTo 2 (g.uniform 2.8 3.6)
        else roundTo 1 (g.uniform 3.8 4.8)
      vmax := if futureMode then g.randint 310 360 else g.randint 260 300
      power_hp := if futureMode then g.randint 800 1100
        else g.randint 500 680
      autonomy := autonomy
      seats := 4
      tag := if futureMode then lit "Berline néo-luxe" else lit "Berline"
      dims := dims }

theorem round_mono_rat {x y : ℚ} (h : x ≤ y) : round x ≤ round y := by
  rw [round_eq, round_eq]
  exact Int.floor_mono (by linarith)

/-- Nearest rounding at `n` decimal digits keeps a value inside any
interval whose ends have at most `n` decimal digits. -/
theorem roundTo_mem (n : Nat) (za zb : ℤ) {a b x : ℚ}
    (ha : a = (za : ℚ) / 10 ^ n) (hb : b = (zb : ℚ) / 10 ^ n)
    (h1 : a ≤ x) (h2 : x ≤ b) : a ≤ roundTo n x ∧ roundTo n x ≤ b := by
  have hpow : (0 : ℚ) < 10 ^ n := by positivity
  subst ha hb
  rw [div_le_iff₀ hpow] at h1
  rw [le_div_iff₀ hpow] at h2
  have r1 : za ≤ round (x * 10 ^ n) := by
    have h3 := round_mono_rat h1
    rw [round_intCast] at h3
    exact h3
  have r2 : round (x * 10 ^ n) ≤ zb := by
    have h3 := round_mono_rat h2
    rw [round_intCast] at h3
    exact h3
  unfold roundTo
  constructor
  · exact (div_le_div_iff_of_pos_right hpow).mpr (Int.cast_le.mpr r1)
  · exact (div_le_div_iff_of_pos_right hpow).mpr (Int.cast_le.mpr r2)

/-- Membership of a rational in a closed interval. -/
def inQ (lo hi x : ℚ) : Prop := lo ≤ x ∧ x ≤ hi

/-- Membership of an integer in a closed interval. -/
def inZ (lo hi x : ℤ) : Prop := lo ≤ x ∧ x ≤ hi

/-- C4.  Under the random-source contract every sampled numeric field of
the produced spec lies in its category's declared closed interval; in
base (non-future) mode acceleration is in [2.6, 3.2] s (sport) resp.
[3.8, 4.8] s (berline), top speed in [310, 340] resp. [260, 300] km/h,
power in [750, 900] resp. [500, 680] hp and range in [700, 950] km; in
future mode the declared intervals are [1.8, 2.4] resp. [2.8, 3.6] s,
[360, 420] resp. [310, 360] km/h, [1100, 1600] resp. [800, 1100] hp and
[950, 1200] km; the four dimensions lie in their declared intervals in
both modes. -/
theorem random_specs_ranges (g : RNG) (hg : g.Lawful) (ct : CarType)
    (fm : Bool) :
    (fm = false →
      (ct = CarType.sport →
        inQ 2.6 3.2 (random_specs g fm ct).zero100 ∧
        inZ 310 340 (random_specs g fm ct).vmax ∧
        inZ 750 900 (random_specs g fm ct).power_hp) ∧
      (ct = CarType.berline →
        inQ 3.8 4.8 (random_specs g fm ct).zero100 ∧
        inZ 260 300 (random_specs g fm ct).vmax ∧
        inZ 500 680 (random_specs g fm ct).power_hp) ∧
      inZ 700 950 (random_specs g fm ct).autonomy) ∧
    (fm = true →
      (ct = CarType.sport →
        inQ 1.8 2.4 (random_specs g fm ct).zero100 ∧
        inZ 360 420 (random_specs g fm ct).vmax ∧
        inZ 1100 1600 (random_specs g fm ct).power_hp) ∧
      (ct = CarType.berline →
        inQ 2.8 3.6 (random_specs g fm ct).zero100 ∧
        inZ 310 360 (random_specs g fm ct).vmax ∧
        inZ 800 1100 (random_specs g fm ct).power_hp) ∧
      inZ 950 1200 (random_specs g fm ct).autonomy) ∧
    inQ 4.70 5.15 (random_specs g fm ct).dims.length ∧
    inQ 1.92 2.06 (random_specs g fm ct).dims.width ∧
    inQ 1.17 1.40 (random_specs g fm ct).dims.height ∧
    inQ 2.85 3.15 (random_specs g fm ct).dims.wheelbase := by
  obtain ⟨hu, hr⟩ := hg
  have dimL := roundTo_mem 2 470 515 (by norm_num) (by norm_num)
    (hu 4.70 5.15 (by norm_num)).1 (hu 4.70 5.15 (by norm_num)).2
  have dimW := roundTo_mem 2 192 206 (by norm_num) (by norm_num)
    (hu 1.92 2.06 (by norm_num)).1 (hu 1.92 2.06 (by norm_num)).2
  have dimH := roundTo_mem 2 117 140 (by norm_num) (by norm_num)
    (hu 1.17 1.40 (by norm_num)).1 (hu 1.17 1.40 (by norm_num)).2
  have dimWb := roundTo_mem 2 285 315 (by norm_num) (by norm_num)
    (hu 2.85 3.15 (by norm_num)).1 (hu 2.85 3.15 (by norm_num)).2
  cases fm with
  | false =>
    cases ct with
    | sport =>
      have hz := roundTo_mem 1 26 32 (by norm_num) (by norm_num)
        (hu 2.6 3.2 (by norm_num)).1 (hu 2.6 3.2 (by norm_num)).2
      have hv := hr 310 340 (by norm_num)
      have hp := hr 750 900 (by norm_num)
      have hauto := hr 700 950 (by norm_num)
      simp only [random_specs, if_true, if_false, Bool.false_eq_true,
        reduceIte, inQ, inZ]
      exact ⟨fun _ => ⟨fun _ => ⟨hz, hv, hp⟩,
          fun hcon => absurd hcon (by simp), hauto⟩,
        fun hcon => absurd hcon (by simp), dimL, dimW, dimH, dimWb⟩
    | berline =>
      have hz := roundTo_mem 1 38 48 (by norm_num) (by norm_num)
        (hu 3.8 4.8 (by norm_num)).1 (hu 3.8 4.8 (by norm_num)).2
      have hv := hr 260 300 (by norm_num)
      have hp := hr 500 680 (by norm_num)
      have hauto := hr 700 950 (by norm_num)
      simp only [random_specs, if_true, if_false, Bool.false_eq_true,
        reduceIte, inQ, inZ]
      exact ⟨fun _ => ⟨fun hcon => absurd hcon (by simp),
          fun _ => ⟨hz, hv, hp⟩, hauto⟩,
        fun hcon => absurd hcon (by simp), dimL, dimW, dimH, dimWb⟩
  | true =>
    cases ct with
    | sport =>
      have hz := roundTo_mem 2 180 240 (by norm_num) (by norm_num)
        (hu 1.8 2.4 (by norm_num)).1 (hu 1.8 2.4 (by norm_num)).2
      have hv := hr 360 420 (by norm_num)
      have hp := hr 1100 1600 (by norm_num)
      have hauto := hr 950 1200 (by norm_num)
      simp only [random_specs, if_true, if_false, Bool.true_eq_false,
        reduceIte, inQ, inZ]
      exact ⟨fun hcon => absurd hcon (by simp),
        fun _ => ⟨fun _ => ⟨hz, hv, hp⟩,
          fun hcon => absurd hcon (by simp), hauto⟩,
        dimL, dimW, dimH, dimWb⟩
    | berline =>
      have hz := roundTo_mem 2 280 360 (by norm_num) (by norm_num)
        (hu 2.8 3.6 (by norm_num)).1 (hu 2.8 3.6 (by norm_num)).2
      have hv := hr 310 360 (by norm_num)
      have hp := hr 800 1100 (by norm_num)
      have hauto := hr 950 1200 (by norm_num)
      simp only [random_specs, if_true, if_false, Bool.true_eq_false,
        reduceIte, inQ, inZ]
      exact ⟨fun hcon => absurd hcon (by simp),
        fun _ => ⟨fun hcon => absurd hcon (by simp),
          fun _ => ⟨hz, hv, hp⟩, hauto⟩,
        dimL, dimW, dimH, dimWb⟩

/-- Lower-endpoint random source used to witness the contract. -/
def rng0 : RNG where
  uniform := fun a _ => a
  randint := fun a _ => a

/-- C4 (witness).  The range theorem applied to the lower-endpoint
random source, the sport category and base mode. -/
theorem random_specs_ranges_witness :
    RNG.Lawful rng0 ∧
    ((false = false →
      (CarType.sport = CarType.sport →
        inQ 2.6 3.2 (random_specs rng0 false CarType.sport).zero100 ∧
        inZ 310 340 (random_specs rng0 false CarType.sport).vmax ∧
        inZ 750 900 (random_specs rng0 false CarType.sport).power_hp) ∧
      (CarType.sport = CarType.berline →
        inQ 3.8 4.8 (random_specs rng0 false CarType.sport).zero100 ∧
        inZ 260 300 (random_specs rng0 false CarType.sport).vmax ∧
        inZ 500 680 (random_specs rng0 false CarType.sport).power_hp) ∧
      inZ 700 950 (random_specs rng0 false CarType.sport).autonomy) ∧
    (false = true →
      (CarType.sport = CarType.sport →
        inQ 1.8 2.4 (random_specs rng0 false CarType.sport).zero100 ∧
        inZ 360 420 (random_specs rng0 false CarType.sport).vmax ∧
        inZ 1100 1600 (random_specs rng0 false CarType.sport).power_hp) ∧
      (CarType.sport = CarType.berline →
        inQ 2.8 3.6 (random_specs rng0 false CarType.sport).zero100 ∧
        inZ 310 360 (random_specs rng0 false CarType.sport).vmax ∧
        inZ 800 1100 (random_specs rng0 false CarType.sport).power_hp) ∧
      inZ 950 1200 (random_specs rng0 false CarType.sport).autonomy) ∧
    inQ 4.70 5.15 (random_specs rng0 false CarType.sport).dims.length ∧
    inQ 1.92 2.06 (random_specs rng0 false CarType.sport).dims.width ∧
    inQ 1.17 1.40 (random_specs rng0 false CarType.sport).dims.height ∧
    inQ 2.85 3.15 (random_specs rng0 false CarType.sport).dims.wheelbase) :=
  ⟨⟨fun a _ h => ⟨le_refl a, h⟩, fun a _ h => ⟨le_refl a, h⟩⟩,
    random_specs_ranges rng0
      ⟨fun a _ h => ⟨le_refl a, h⟩, fun a _ h => ⟨le_refl a, h⟩⟩
      CarType.sport false⟩

/-! ### Prompt builders (lines 101–204) and fixed tables. -/

/-- Hints drawn by `unique_future_hint` (future mode only). -/
def HINTS : List (List Char) :=
  [lit "subtle ionized air glow near edges",
   lit "rain-beaded body with neon reflections",
   lit "dusty moon surface particles subtly reflecting",
   lit "thin mist with volumetric shafts of light"]

/-- Table `FUTURE_FEATURES_EXT`. -/
def FUTURE_FEATURES_EXT : List (List Char) :=
  [lit "biomorphic shoulder lines with flowing parametric textures",
   lit "edge-lit DRL signature integrated into body perimeter",
   lit "flush smart air curtains with micro-perforations",
   lit "levitating look hubless turbofan wheels",
   lit "steer-by-wire with ultra-thin yoke",
   lit "rear aero tunnel with active shutter blades",
   lit "full-glass canopy with electrochromic gradients"]

/-- One propulsion entry of the `PROPULSIONS` table. -/
structure Propulsion where
  tag : List Char
  desc : List Char
  emoji : List Char

/-- Table `PROPULSIONS`. -/
def PROPULSIONS : List Propulsion :=
  [{ tag := lit "Hydrogène solide",
     desc := lit "pile à combustible + réservoir cryo-compact, double e-axle",
     emoji := lit "🧊" },
   { tag := lit "Électrique solide",
     desc := lit "pack batterie solide 200 kWh + supercondensateurs graphène",
     emoji := lit "🔋" },
   { tag := lit "Hybride microturbine",
     desc := lit "microturbine génératrice + e-quad moteurs in-wheel",
     emoji := lit "🌀" },
   { tag := lit "Solaire actif",
     desc := lit "peau photovoltaïque + buffer supercaps + AWD vectorisée",
     emoji := lit "☀️" }]

/-- Table `CAR_COLORS`. -/
def CAR_COLORS : List (List Char) :=
  [lit "liquid metal silver", lit "prismatic chameleon",
   lit "structural morpho blue", lit "nano-ceramic white",
   lit "graphite black mirror", lit "plasma violet satin",
   lit "copper aurora", lit "holographic teal"]

/-- Table `ENVIRONMENTS`. -/
def ENVIRONMENTS : List (List Char) :=
  [lit "orbital hangar with soft volumetric light",
   lit "lunar base apron under Earthrise",
   lit "neon megacity skybridge at night with mist",
   lit "desert salt flat with heat shimmer",
   lit "high-altitude alpine lab with glass walls",
   lit "clean room pavilion with diffuse lighting"]

/-- Model of `base_style`.  `futHint` is the oracle draw standing for
the `unique_future_hint()` call made when future mode is on. -/
def base_style (fm : Bool) (futHint unique_hint : List Char) : List Char :=
  let era := if fm then
      lit "year 2045 prototype at an international auto design reveal"
    else lit "high-end concept reveal"
  let safety := lit
    "no logos, no text, no license plate, no brand grille, no watermarks, not resembling existing brands"
  let optics := lit
    "cinematic optics, crisp global illumination, microdetail, 85mm lens, shallow depth of field"
  let materials := if fm then lit
      "morphing aero surfaces, seamless panels, continuous OLED light blade, hubless wheels, active aero vents, glass canopy, illuminated edges"
    else lit
      "clean aero surfaces, seamless panels, refined light signatures, advanced aero, glass canopy, premium materials"
  let extra := if fm then lit " " ++ futHint else []
  lit "Ultra-realistic photograph of a radical concept car, " ++ era ++
    lit "; " ++ safety ++
    lit "; clean minimal surfacing, aero-sculpted silhouette; " ++
    materials ++ lit "; " ++ optics ++ lit ". " ++ unique_hint ++ extra

/-- Model of `prompt_front`.  `featHint` stands for the future-mode
`random.choice(FUTURE_FEATURES_EXT)` draw, `styleHint` for the
`unique_future_hint()` draw inside `base_style`. -/
def prompt_front (fm : Bool) (featHint styleHint : List Char)
    (kind : CarType) (name paint backdrop : List Char) : List Char :=
  let body := if kind = CarType.sport then
      lit "low, wide hypercar stance with cab-forward proportions"
    else lit "long fastback luxury sedan with one-bow profile"
  let hint := if fm then featHint
    else lit "distinctive LED signature; unique front graphics"
  base_style fm styleHint
      (lit "distinctive LED DRL geometry; " ++ hint ++ lit ".") ++
    lit "\nShot: dynamic front three-quarter; Body: " ++ body ++
    lit "; Backdrop: " ++ backdrop ++
    lit "; Paint: " ++ paint ++
    lit "; Wheels: " ++
    (if fm then lit "hubless aero turbofan" else lit "turbine-inspired") ++
    lit "; Vehicle codename: " ++ name ++ lit "."

/-- Model of `prompt_rear`. -/
def prompt_rear (fm : Bool) (styleHint : List Char) (kind : CarType)
    (name paint backdrop : List Char) : List Char :=
  let tail := if kind = CarType.sport then
      lit "floating diffuser with continuous light blade and kinetic aero fins"
    else lit "clean boat-tail with seamless light ribbon and deployable aero"
  base_style fm styleHint
      (lit "bespoke taillight blade integrated flush into the body; kinetic aero.") ++
    lit "\nShot: low-angle rear three-quarter; Tail: " ++ tail ++
    lit "; Backdrop: " ++ backdrop ++
    lit "; Paint: " ++ paint ++
    lit "; Vehicle codename: " ++ name ++ lit "."

/-- Model of `prompt_interior`.  Note the signature: the backdrop is not
an input of this prompt; only kind, name and paint reach it.  `modeIdx`
stands for the `random.choice` between the two camera modes. -/
def prompt_interior (fm : Bool) (modeIdx : Fin 2) (kind : CarType)
    (name paint : List Char) : List Char :=
  let mode := if fm then
      (if modeIdx.val = 0 then lit "cockpit close-up from driver\x27s seat"
       else lit "interior seen from outside through open canopy, left side")
    else
      (if modeIdx.val = 0 then lit "cockpit close-up from driver\x27s seat"
       else lit
         "interior seen from outside through the open driver door, left side")
  (if fm then lit
      "Zero-clutter interior with electrochromic glass canopy, vegan performance textiles, basalt-fiber inlays, floating center spine, full-width AR HUD with spatial UI, haptic yoke, seamless OLED instrument ribbon; "
    else lit
      "High-end luxury interior with subtle accents matching the exterior paint, vegan leather, basalt-fiber inlays, brushed metal, wide AR HUD, panoramic curved display, ") ++
    mode ++ lit ", natural daylight, photo-real, " ++ paint ++
    lit " accents, no logos.\nVehicle codename: " ++ name ++ lit "."

/-! ### Index card fragment (lines 428–450). -/

/-- Table `FR_MONTHS`. -/
def FR_MONTHS : List (List Char) :=
  [lit "janvier", lit "février", lit "mars", lit "avril", lit "mai",
   lit "juin", lit "juillet", lit "août", lit "septembre", lit "octobre",
   lit "novembre", lit "décembre"]

/-- Model of `format_date_fr`: `f"{dt.day} {FR_MONTHS[dt.month-1]}
{dt.year}"` (months are 1-based; out-of-range months cannot come from
`datetime`). -/
def format_date_fr (day month year : Nat) : List Char :=
  Nat.toDigits 10 day ++ lit " " ++ FR_MONTHS.getD (month - 1) [] ++
    lit " " ++ Nat.toDigits 10 year

/-- Model of `make_card_block` (the trailing newline and indentation of
the f-string are removed by `.rstrip()`). -/
def make_card_block (article_rel img_rel title meta_tag : List Char)
    (day month year : Nat) (prop_tag prop_emoji : List Char) : List Char :=
  let date_str := format_date_fr day month year
  lit "\n      <article class=\"card\">\n        <a class=\"thumb\" href=\"" ++
    article_rel ++ lit "\" aria-label=\"Lire : " ++ title ++
    lit "\">\n          <img src=\"" ++ img_rel ++
    lit "\" alt=\"" ++ title ++
    lit "\">\n          <span class=\"badge\">" ++ prop_emoji ++ lit " " ++
    prop_tag ++
    lit "</span>\n        </a>\n        <div class=\"card-body\">\n          <h2 class=\"title\">" ++
    title ++
    lit "</h2>\n          <p class=\"excerpt\">Concept " ++
    lowerStr prop_tag ++
    lit " : 0–100 en quelques secondes, autonomie longue, design unique.</p>\n          <div class=\"meta\">\n            <span>" ++
    date_str ++
    lit "</span><span>•</span><span>" ++ meta_tag ++
    lit "</span>\n          </div>\n          <a class=\"link\" href=\"" ++
    article_rel ++
    lit "\">Lire</a>\n        </div>\n      </article>"

/-! ### The main pipeline (lines 463–542).

Modelled from line 467 onward; the API-key check, the image downloads
and the article rendering write pure byte/text outputs that no claim
inspects, so the model records the file names and prompt strings the
script computes, the card fragment, and the index update outcome.  The
random draws of one run appear as one oracle record. -/

/-- Oracle draws of one run of `main`. -/
structure Draws where
  syl1 : Fin SYLLABLES.length
  syl2 : Fin SYLLABLES.length
  rng : RNG
  propIdx : Fin PROPULSIONS.length
  paintIdx : Fin CAR_COLORS.length
  backdropIdx : Fin ENVIRONMENTS.length
  interiorMode : Fin 2
  frontFeature : Fin FUTURE_FEATURES_EXT.length
  styleHintFront : Fin HINTS.length
  styleHintRear : Fin HINTS.length

/-- Outcome of the index-update step of `main` (lines 536–539): a
missing index file prints a warning and skips insertion; a present file
is rewritten on success and kept as is — with a fatal error — when
`insert_card_into_index` raises. -/
def index_outcome (indexFile : Option (List Char)) (card : List Char) :
    Option (List Char) × Bool :=
  match indexFile with
  | some html =>
    match insert_card_into_index html card with
    | some out => (some out, false)
    | none => (some html, true)
  | none => (none, false)

/-- Observable result of one modelled run. -/
structure MainResult where
  car_type : CarType
  model_name : List Char
  articleName : List Char
  img01Name : List Char
  img02Name : List Char
  img03Name : List Char
  p1 : List Char
  p2 : List Char
  p3 : List Char
  card : List Char
  indexAfter : Option (List Char)
  fatalIndexError : Bool

/-- Model of `main` from the category choice to the index update. -/
def mainModel (fm : Bool) (year month day : Nat) (dr : Draws)
    (indexFile : Option (List Char)) : MainResult :=
  let car_type := choose_category day
  let model_name := invent_name car_type dr.syl1 dr.syl2
  let img01 := image_file_name year month day model_name (lit "01")
  let img02 := image_file_name year month day model_name (lit "02")
  let img03 := image_file_name year month day model_name (lit "03")
  let articleName := article_file_name year month day model_name
  let specs := random_specs dr.rng fm car_type
  let propulsion := PROPULSIONS.get dr.propIdx
  let paint := CAR_COLORS.get dr.paintIdx
  let backdrop := ENVIRONMENTS.get dr.backdropIdx
  let p1 := prompt_front fm (FUTURE_FEATURES_EXT.get dr.frontFeature)
    (HINTS.get dr.styleHintFront) car_type model_name paint backdrop
  let p2 := prompt_rear fm (HINTS.get dr.styleHintRear) car_type
    model_name paint backdrop
  let p3 := prompt_interior fm dr.interiorMode car_type model_name paint
  let card := make_card_block (lit "/articles/" ++ articleName)
    (lit "/images/" ++ img01) (model_name ++ lit " — Concept Car")
    specs.tag day month year propulsion.tag propulsion.emoji
  let outcome := index_outcome indexFile card
  { car_type := car_type
    model_name := model_name
    articleName := articleName
    img01Name := img01
    img02Name := img02
    img03Name := img03
    p1 := p1
    p2 := p2
    p3 := p3
    card := card
    indexAfter := outcome.1
    fatalIndexError := outcome.2 }

/-- A string begins with itself, so it contains itself. -/
theorem containsStr_self_append (pat b : List Char) :
    ContainsStr (pat ++ b) pat := ⟨[], b, by simp⟩

/-- C5 (amended).  In every run exactly one paint and one backdrop are
drawn and passed to the prompt builders: the front and rear prompts
contain both the chosen paint string and the chosen backdrop string, and
the interior prompt contains the same chosen paint string — but the
interior prompt takes no backdrop at all, so only the first two prompts
carry the backdrop. -/
theorem prompts_share_paint_and_backdrop (fm : Bool) (y m d : Nat)
    (dr : Draws) (idx : Option (List Char)) :
    ContainsStr (mainModel fm y m d dr idx).p1
      (CAR_COLORS.get dr.paintIdx) ∧
    ContainsStr (mainModel fm y m d dr idx).p2
      (CAR_COLORS.get dr.paintIdx) ∧
    ContainsStr (mainModel fm y m d dr idx).p3
      (CAR_COLORS.get dr.paintIdx) ∧
    ContainsStr (mainModel fm y m d dr idx).p1
      (ENVIRONMENTS.get dr.backdropIdx) ∧
    ContainsStr (mainModel fm y m d dr idx).p2
      (ENVIRONMENTS.get dr.backdropIdx) := by
  refine ⟨?_, ?_, ?_, ?_, ?_⟩ <;>
  · simp only [mainModel, prompt_front, prompt_rear, prompt_interior,
      List.append_assoc]
    repeat
      first
        | exact containsStr_self_append _ _
        | apply containsStr_append_right

/-- Concrete run draws used for the C5 counterexample. -/
def drawsC5 : Draws where
  syl1 := ⟨0, by decide⟩
  syl2 := ⟨1, by decide⟩
  rng := rng0
  propIdx := ⟨0, by decide⟩
  paintIdx := ⟨0, by decide⟩
  backdropIdx := ⟨0, by decide⟩
  interiorMode := ⟨0, by decide⟩
  frontFeature := ⟨0, by decide⟩
  styleHintFront := ⟨0, by decide⟩
  styleHintRear := ⟨0, by decide⟩

set_option maxRecDepth 4000 in
/-- C5 (counterexample).  In the base-mode run on day 1 with the first
entry of every table drawn, the interior prompt does not contain the
chosen backdrop string anywhere: the claim that all three prompts
contain the chosen backdrop fails on the interior prompt, whose builder
never receives the backdrop. -/
theorem prompt_interior_lacks_backdrop :
    ¬ ContainsStr (mainModel false 2025 1 1 drawsC5 none).p3
      (ENVIRONMENTS.get drawsC5.backdropIdx) :=
  not_containsStr_of_containsB_false (by decide)

/-- A present index file turns into a fatal run exactly when the code's
sentinel check fails on it. -/
theorem index_outcome_fatal_iff (html card : List Char) :
    (index_outcome (some html) card).2 = true ↔
      sentinelsOk html = false := by
  have h2 := insert_eq_some_iff_sentinelsOk html card
  simp only [index_outcome]
  rcases hins : insert_card_into_index html card with _ | out
  · rw [hins] at h2
    simp only [Option.isSome_none] at h2
    simp [← h2]
  · rw [hins] at h2
    simp only [Option.isSome_some] at h2
    simp [← h2]

/-- C9.  A missing index file is not an error: the run completes with no
fatal index error, no index content is created, and the article and
image names are still produced; a present index file makes the run fatal
exactly when its sentinels fail the code's check. -/
theorem missing_index_file_not_error (fm : Bool) (y m d : Nat)
    (dr : Draws) :
    ((mainModel fm y m d dr none).fatalIndexError = false ∧
      (mainModel fm y m d dr none).indexAfter = none ∧
      (mainModel fm y m d dr none).articleName =
        article_file_name y m d
          (invent_name (choose_category d) dr.syl1 dr.syl2) ∧
      (mainModel fm y m d dr none).img01Name =
        image_file_name y m d
          (invent_name (choose_category d) dr.syl1 dr.syl2) (lit "01")) ∧
    ∀ html, ((mainModel fm y m d dr (some html)).fatalIndexError = true ↔
      sentinelsOk html = false) := by
  refine ⟨⟨rfl, rfl, rfl, rfl⟩, ?_⟩
  intro html
  exact index_outcome_fatal_iff html ((mainModel fm y m d dr (some html)).card)

end FuturaDrive
